import Mathlib

/-!
Verification of the text-parsing core of `juce_CharacterFunctions.h`
(`CharacterFunctions::getDoubleValue`, `getIntValue`, `compare`,
`compareUpTo`, `indexOf`, `copyAndAdvanceUpToBytes`, `findEndOfWhitespace`).

Modelling conventions:

* A character cursor over a null-terminated buffer is modelled as the
  `List Nat` of code points remaining before the terminator.  Per the
  cursor contract, dereferencing at the terminator yields 0 and advancing
  past the terminator is a no-op.
* C++ `double` values that arise inside `getDoubleValue` are modelled as
  exact rationals (`ℚ`).  Every claim settled below only involves
  quantities whose IEEE-754 computation is exact (special values, zeros,
  and integer-valued accumulators far below 2^53), so the rational model
  agrees with the machine semantics on those claims.
* The returned `double` is modelled sign-magnitude (`JDouble.finite neg mag`
  denotes `(-1)^neg * mag`), so that IEEE signed zero (`finite true 0`,
  i.e. -0.0) is distinguishable from +0.0; the source applies its single
  negation in the final `return isNegative ? -r : r`.
* Fixed-width signed integers are modelled as `ℤ` reduced into
  `[-2^(w-1), 2^(w-1))` after every operation (two's-complement wraparound).
-/

/-- Cursor dereference: the current code point, 0 at/after the terminator. -/
def cur : List Nat → Nat
  | [] => 0
  | c :: _ => c

/-- Cursor advance: move to the next code point; a no-op at the terminator. -/
def adv : List Nat → List Nat
  | [] => []
  | _ :: t => t

/-- Modelled from the spec: the cursor's digit classification (`isDigit`),
which the numeric parsers use for the ASCII digit code points '0'..'9';
the concrete classifier is declared but not defined in the header. -/
def isDigitCp (c : Nat) : Prop := 48 ≤ c ∧ c ≤ 57

instance : DecidablePred isDigitCp := fun c =>
  inferInstanceAs (Decidable (48 ≤ c ∧ c ≤ 57))

/-- Modelled from the spec: the cursor's whitespace classification
(`isWhitespace`), declared but not defined in the header; taken to be the
standard ASCII whitespace set.  No settled claim depends on the exact set:
both sides of every statement use this same predicate. -/
def isWsCp (c : Nat) : Prop := c = 32 ∨ c = 9 ∨ c = 10 ∨ c = 13 ∨ c = 11 ∨ c = 12

instance : DecidablePred isWsCp := fun c =>
  inferInstanceAs (Decidable (c = 32 ∨ c = 9 ∨ c = 10 ∨ c = 13 ∨ c = 11 ∨ c = 12))

/-- `CharacterFunctions::findEndOfWhitespace`: advance a copy of the cursor
while it points at whitespace and return it. -/
def findEndOfWhitespace : List Nat → List Nat
  | [] => []
  | c :: t => if isWsCp c then findEndOfWhitespace t else c :: t

/-- The `IntType` accumulator of `getIntValue`: two's-complement wraparound
into `w` bits, i.e. reduction into `[-2^(w-1), 2^(w-1))`. -/
def wrapS (w : ℕ) (z : ℤ) : ℤ := (z + 2 ^ (w - 1)) % 2 ^ w - 2 ^ (w - 1)

/-- The digit loop of `CharacterFunctions::getIntValue`: `getAndAdvance` a
code point; if it is an ASCII digit, fold it as `v * 10 + digit` (with the
fixed-width type's wraparound) and continue, otherwise break.  Note the
non-digit code point has already been consumed by `getAndAdvance` when the
loop breaks; the second component is the internal cursor after the loop. -/
def getIntLoop (w : ℕ) (v : ℤ) : List Nat → ℤ × List Nat
  | [] => (v, [])
  | c :: t =>
    if isDigitCp c then getIntLoop w (wrapS w (v * 10 + ((c : ℤ) - 48))) t
    else (v, t)

/-- `CharacterFunctions::getIntValue` over a `w`-bit signed `IntType`:
skip leading whitespace, consume an optional leading '-', fold digits,
apply the sign last.  The second component is the final position of the
function's local cursor `s` (the parameter itself is taken by const
reference and never modified). -/
def getIntValueFull (w : ℕ) (text : List Nat) : ℤ × List Nat :=
  let s := findEndOfWhitespace text
  let isNeg := cur s = 45
  let s := if isNeg then adv s else s
  let p := getIntLoop w 0 s
  (if isNeg then wrapS w (-p.1) else p.1, p.2)

/-- The value returned by `getIntValue`. -/
def getIntValue (w : ℕ) (text : List Nat) : ℤ := (getIntValueFull w text).1

/-- The caller's cursor after a call to `getIntValue`: the parameter is
`const CharPointerType& text`, and the function only copies it into the
local `s`, so the caller's cursor is returned unchanged. -/
def getIntValueCallerAfter (w : ℕ) (text : List Nat) : List Nat := text

/-- The `double` results of `getDoubleValue`, sign-magnitude: `finite neg mag`
denotes the IEEE value `(-1)^neg * mag` (so `finite true 0` is -0.0);
`posInf`/`negInf` are the infinities and `nan` the quiet NaN.  The source
only ever produces `finite`, `posInf` and `nan`; `negInf` exists so that
statements about negative infinity can be expressed. -/
inductive JDouble where
  | finite (neg : Bool) (mag : ℚ)
  | posInf
  | negInf
  | nan
deriving DecidableEq, Repr

/-- Ten to an integer power, as an explicit fraction of natural powers
(kernel-computable, unlike the generic `zpow`). -/
def pow10 (e : ℤ) : ℚ := mkRat (10 ^ e.toNat) (10 ^ (-e).toNat)

/-- Modelled from the spec: `mulexp10 (value, exponent)` (declared in the
header, defined elsewhere) multiplies a value by ten to the given power. -/
def mulexp10 (value : ℚ) (exponent : ℤ) : ℚ := value * pow10 exponent

/-- The local accumulation state of `getDoubleValue`: the two `double`
lanes `result[0..1]` and `accumulator[0..1]`, the `int` counters
`exponentAdjustment[0..1]` and `exponentAccumulator[0..1]`, and the scan
bookkeeping (`decPointIndex`, `digit`, `lastDigit`, `numSignificantDigits`,
`digitsFound`).  `result[2]` is declared by the source but never used. -/
structure DState where
  result0 : ℚ
  result1 : ℚ
  accumulator0 : ℚ
  accumulator1 : ℚ
  exponentAdjustment0 : ℤ
  exponentAdjustment1 : ℤ
  exponentAccumulator0 : ℤ
  exponentAccumulator1 : ℤ
  decPointIndex : ℕ
  digit : ℕ
  lastDigit : ℕ
  numSignificantDigits : ℕ
  digitsFound : Bool
deriving Repr

/-- The initial values of `getDoubleValue`'s locals. -/
def initDState : DState :=
  { result0 := 0, result1 := 0, accumulator0 := 0, accumulator1 := 0
    exponentAdjustment0 := 0, exponentAdjustment1 := 0
    exponentAccumulator0 := -1, exponentAccumulator1 := -1
    decPointIndex := 0, digit := 0, lastDigit := 0
    numSignificantDigits := 0, digitsFound := false }

/-- The inner `while (s.isDigit()) ++s;` of `getDoubleValue`'s digit-cap
branch: the cursor after skipping a run of digits. -/
def skipDigits : List Nat → List Nat
  | [] => []
  | c :: t => if isDigitCp c then skipDigits t else c :: t

/-- The number of digits skipped by that inner while loop (each one bumps
`exponentAdjustment[0]` when `decPointIndex == 0`). -/
def countDigits : List Nat → ℕ
  | [] => 0
  | c :: t => if isDigitCp c then countDigits t + 1 else 0

/-- `maxSignificantDigits = 15 + 2` from the source. -/
def maxSignificantDigits : ℕ := 17

/-- `(double) ((std::numeric_limits<unsigned int>::max() - 9) / 10)`,
the accumulator flush threshold: the division happens in `unsigned int`
arithmetic, so the value is the integer `(2^32 - 10) / 10 = 429496728`. -/
def maxAccumulatorValue : ℚ := ((4294967295 - 9) / 10 : ℕ)

/-- The rounding test of the digit-cap branch:
`digit > 5 || (digit == 5 && (lastDigit & 1) != 0)`. -/
def roundsUp (digit lastDigit : ℕ) : Prop :=
  5 < digit ∨ (digit = 5 ∧ lastDigit % 2 = 1)

instance : ∀ d l, Decidable (roundsUp d l) := fun d l =>
  inferInstanceAs (Decidable (5 < d ∨ (d = 5 ∧ l % 2 = 1)))

/-- The main `for (;;)` scanning loop of `getDoubleValue` (source lines
127-191), as a function from the cursor and the locals to their values at
the loop's exit.  The digit-cap branch's interleaved
`while (s.isDigit()) { ++s; if (decPointIndex == 0) exponentAdjustment[0]++; }`
is rendered as `skipDigits`/`countDigits` (`decPointIndex` is constant
during that loop).  `accumulator[decPointIndex]` array indexing becomes an
`if` on `decPointIndex = 0`; the source only ever holds 0 or 1 there.
The flush test `accumulator[decPointIndex] > maxAccumulatorValue` is
written with the kernel-computable `Rat.blt` (`Rat.blt a b` decides
`a < b`).
Recursion is driven by a fuel argument for structural evaluation; every
iteration consumes at least one code point, so any fuel exceeding the
cursor's length computes the loop's exit state (see `scanLoopF_irrel`),
and `scanLoop` below supplies such a fuel. -/
def scanLoopF : ℕ → List Nat → DState → List Nat × DState
  | 0, s, st => (s, st)
  | _ + 1, [], st => ([], st)
  | fuel + 1, c :: t, st =>
    if isDigitCp c then
      -- lastDigit = digit; digit = s.getAndAdvance() - '0'; digitsFound = true;
      let digit := c - 48
      let st1 : DState :=
        { st with lastDigit := st.digit, digit := digit, digitsFound := true,
                  exponentAdjustment1 :=
                    if st.decPointIndex ≠ 0 then st.exponentAdjustment1 + 1
                    else st.exponentAdjustment1 }
      if st.numSignificantDigits = 0 ∧ digit = 0 then
        scanLoopF fuel t st1
      else if st.numSignificantDigits + 1 > maxSignificantDigits then
        -- round the last retained digit, adjust the exponent, skip the
        -- rest of this digit run
        let st2 : DState :=
          { st1 with numSignificantDigits := st1.numSignificantDigits + 1 }
        let st3 : DState :=
          if roundsUp digit st.digit then
            if st.decPointIndex = 0 then { st2 with accumulator0 := st2.accumulator0 + 1 }
            else { st2 with accumulator1 := st2.accumulator1 + 1 }
          else st2
        let st4 : DState :=
          if 0 < st.decPointIndex then
            { st3 with exponentAdjustment1 := st3.exponentAdjustment1 - 1 }
          else
            { st3 with exponentAdjustment0 := st3.exponentAdjustment0 + 1 }
        let st5 : DState :=
          if st.decPointIndex = 0 then
            { st4 with exponentAdjustment0 := st4.exponentAdjustment0 + countDigits t }
          else st4
        scanLoopF fuel (skipDigits t) st5
      else
        -- flush the accumulator if one more digit could overflow it,
        -- then fold the digit in
        let st2 : DState :=
          { st1 with numSignificantDigits := st1.numSignificantDigits + 1 }
        let st3 : DState :=
          if st.decPointIndex = 0 then
            let st' :=
              if Rat.blt maxAccumulatorValue st.accumulator0 then
                { st2 with result0 := mulexp10 st2.result0 st2.exponentAccumulator0 + st2.accumulator0,
                           accumulator0 := 0, exponentAccumulator0 := 0 }
              else st2
            { st' with accumulator0 := st'.accumulator0 * 10 + digit,
                       exponentAccumulator0 := st'.exponentAccumulator0 + 1 }
          else
            let st' :=
              if Rat.blt maxAccumulatorValue st.accumulator1 then
                { st2 with result1 := mulexp10 st2.result1 st2.exponentAccumulator1 + st2.accumulator1,
                           accumulator1 := 0, exponentAccumulator1 := 0 }
              else st2
            { st' with accumulator1 := st'.accumulator1 * 10 + digit,
                       exponentAccumulator1 := st'.exponentAccumulator1 + 1 }
        scanLoopF fuel t st3
    else if st.decPointIndex = 0 ∧ c = 46 then
      -- '.' seen: switch to lane 1; if already past the digit cap, skip
      -- the fraction digits and break
      if st.numSignificantDigits > maxSignificantDigits then
        (skipDigits t, { st with decPointIndex := 1 })
      else
        scanLoopF fuel t { st with decPointIndex := 1 }
    else
      (c :: t, st)

/-- The scanning loop of `getDoubleValue`, run with sufficient fuel. -/
def scanLoop (s : List Nat) (st : DState) : List Nat × DState :=
  scanLoopF (s.length + 1) s st

/-- The sign-consuming switch of `getDoubleValue`: '-' records a negative
sign and advances (falling through), '+' just advances. -/
def skipSign (s : List Nat) : Bool × List Nat :=
  if cur s = 45 then (true, adv s)
  else if cur s = 43 then (false, adv s)
  else (false, s)

/-- The post-whitespace, post-sign cursor of `getDoubleValue` together with
the recorded sign (source lines 103-110). -/
def postSignCursor (text : List Nat) : Bool × List Nat :=
  skipSign (findEndOfWhitespace text)

/-- The `nan` special-case test of `getDoubleValue`: the first code point is
'n'/'N', `s[1]` is 'a'/'A' and `s[2]` is 'n'/'N'. -/
def nanMatch (s : List Nat) : Prop :=
  (cur s = 110 ∨ cur s = 78) ∧ (cur (adv s) = 97 ∨ cur (adv s) = 65) ∧
    (cur (adv (adv s)) = 110 ∨ cur (adv (adv s)) = 78)

instance : DecidablePred nanMatch := fun s =>
  inferInstanceAs (Decidable (_ ∧ _ ∧ _))

/-- The `inf` special-case test of `getDoubleValue`: the first code point is
'i'/'I', `s[1]` is 'n'/'N' and `s[2]` is 'f'/'F'. -/
def infMatch (s : List Nat) : Prop :=
  (cur s = 105 ∨ cur s = 73) ∧ (cur (adv s) = 110 ∨ cur (adv s) = 78) ∧
    (cur (adv (adv s)) = 102 ∨ cur (adv (adv s)) = 70)

instance : DecidablePred infMatch := fun s =>
  inferInstanceAs (Decidable (_ ∧ _ ∧ _))

/-- The digit loop of `getDoubleValue`'s exponent parser:
`while (s.isDigit()) exponent = (exponent * 10) + (s.getAndAdvance() - '0');`.
The C++ `int` accumulation is modelled on `ℤ` (no settled claim reaches
`int` overflow of the exponent). -/
def parseExpDigits : List Nat → ℤ → ℤ × List Nat
  | [], e => (e, [])
  | c :: t, e =>
    if isDigitCp c then parseExpDigits t (e * 10 + ((c : ℤ) - 48))
    else (e, c :: t)

/-- The exponent parser of `getDoubleValue` after the 'e'/'E' was consumed:
`switch (*++s) { case '-': negativeExponent = true; case '+': ++s; }`,
then the digit loop, then the sign. -/
def parseExponent (s : List Nat) : ℤ × List Nat :=
  if cur s = 45 then
    let p := parseExpDigits (adv s) 0
    (-p.1, p.2)
  else if cur s = 43 then parseExpDigits (adv s) 0
  else parseExpDigits s 0

/-- The body of `getDoubleValue` after whitespace and sign were consumed:
the `nan`/`inf` special cases, the digit-scanning loop, the lane flushes,
the optional exponent, and the final assembly
`r = mulexp10(result[0], exponent + exponentAdjustment[0])`
(`+ mulexp10(result[1], exponent - exponentAdjustment[1])` if a decimal
point was seen), returned with the recorded sign applied last.  The second
component is the final position of the local cursor `s`. -/
def getDoubleBody (isNegative : Bool) (s : List Nat) : JDouble × List Nat :=
  if nanMatch s then (JDouble.nan, s)
  else if infMatch s then (JDouble.posInf, s)
  else
    let p := scanLoop s initDState
    let st := p.2
    let result0 := mulexp10 st.result0 st.exponentAccumulator0 + st.accumulator0
    let result1 :=
      if st.decPointIndex ≠ 0 then
        mulexp10 st.result1 st.exponentAccumulator1 + st.accumulator1
      else st.result1
    let q :=
      if (cur p.1 = 101 ∨ cur p.1 = 69) ∧ st.digitsFound then parseExponent (adv p.1)
      else (0, p.1)
    let r := mulexp10 result0 (q.1 + st.exponentAdjustment0)
    let r :=
      if st.decPointIndex ≠ 0 then r + mulexp10 result1 (q.1 - st.exponentAdjustment1)
      else r
    (JDouble.finite isNegative r, q.2)

/-- `CharacterFunctions::getDoubleValue`: skip whitespace, consume an
optional sign, then run the parsing body.  The second component is the
final position of the local cursor (the `text` parameter is taken by const
reference and never modified). -/
def getDoubleValueFull (text : List Nat) : JDouble × List Nat :=
  let p := postSignCursor text
  getDoubleBody p.1 p.2

/-- The value returned by `getDoubleValue`. -/
def getDoubleValue (text : List Nat) : JDouble := (getDoubleValueFull text).1

/-- The caller's cursor after a call to `getDoubleValue`: the parameter is
`const CharPointerType& text`, and the function only copies it (via
`findEndOfWhitespace`) into the local `s`, so the caller's cursor is
returned unchanged. -/
def getDoubleValueCallerAfter (text : List Nat) : List Nat := text


/-- `CharacterFunctions::compare`: consume both cursors in lockstep and
return the sign of the first differing pair of code points, or 0 when both
reach the terminator together.  (The source computes `diff = c1 - c2` and
tests `diff != 0` first; here that test is written as `c1 = c2`, and
`diff < 0` as `c1 < c2`.) -/
def strCompare : List Nat → List Nat → ℤ
  | [], s2 =>
    if 0 = cur s2 then 0
    else if 0 < cur s2 then -1 else 1
  | c :: t, s2 =>
    if c = cur s2 then
      if c = 0 then 0 else strCompare t (adv s2)
    else if c < cur s2 then -1 else 1

/-- `CharacterFunctions::compareUpTo`: like `strCompare` but comparing at
most `maxChars` code points (`while (--maxChars >= 0)`). -/
def strCompareUpTo : List Nat → List Nat → ℤ → ℤ
  | [], s2, maxChars =>
    if maxChars ≤ 0 then 0
    else if 0 = cur s2 then 0
    else if 0 < cur s2 then -1 else 1
  | c :: t, s2, maxChars =>
    if maxChars ≤ 0 then 0
    else if c = cur s2 then
      if c = 0 then 0 else strCompareUpTo t (adv s2) (maxChars - 1)
    else if c < cur s2 then -1 else 1

/-- Modelled from the spec: the cursor's `length()` (used by `indexOf` for
`needle.length()`), the number of code points before the terminator. -/
def strLength : List Nat → ℕ
  | [] => 0
  | c :: t => if c = 0 then 0 else strLength t + 1

/-- The search loop of `CharacterFunctions::indexOf`: at each position, if
`compareUpTo` against the needle's full length says equal, return the index;
if the haystack code point consumed by `getAndAdvance` was the terminator,
return -1; otherwise advance and retry. -/
def indexOfLoop (needle : List Nat) (needleLength : ℤ) :
    List Nat → ℤ → ℤ
  | [], index =>
    if strCompareUpTo [] needle needleLength = 0 then index else -1
  | c :: t, index =>
    if strCompareUpTo (c :: t) needle needleLength = 0 then index
    else if c = 0 then -1
    else indexOfLoop needle needleLength t (index + 1)

/-- `CharacterFunctions::indexOf`. -/
def strIndexOf (haystack needle : List Nat) : ℤ :=
  indexOfLoop needle (strLength needle) haystack 0

/-- The code point of a null-terminated text at offset `i` (0 beyond the
end). -/
def codeAt (l : List Nat) (i : ℕ) : Nat := cur (l.drop i)

/-- The needle matches the haystack at code-point offset `k`, for the
needle's full length: that is what the spec calls "the haystack's remaining
text matches the needle". -/
def matchAt (haystack needle : List Nat) (k : ℕ) : Prop :=
  ∀ i < strLength needle, codeAt haystack (k + i) = codeAt needle i

instance (h n : List Nat) (k : ℕ) : Decidable (matchAt h n k) :=
  inferInstanceAs (Decidable (∀ i < strLength n, codeAt h (k + i) = codeAt n i))

/-- `CharacterFunctions::copyAndAdvanceUpToBytes`, parameterized by the
destination encoding's `getBytesRequiredFor` (declared but not defined in
the header; modelled from the spec as an arbitrary per-code-point byte
footprint `bytesFor`).  Returns the written code-point sequence (the
`dest.write` calls, in order) and `numBytesDone`. -/
def copyUpToBytes (bytesFor : Nat → ℕ) : List Nat → ℤ → List Nat × ℕ
  | [], maxBytes =>
    if maxBytes - bytesFor 0 < 0 then ([], 0) else ([0], bytesFor 0)
  | c :: t, maxBytes =>
    if maxBytes - bytesFor c < 0 then ([], 0)
    else if c = 0 then ([0], bytesFor 0)
    else
      let p := copyUpToBytes bytesFor t (maxBytes - bytesFor c)
      (c :: p.1, bytesFor c + p.2)

/-- Spec-side integer parser, written from the claim's words: skip leading
whitespace, consume an optional leading '-' (no '+' handling), fold the
ASCII digits as `accumulator * 10 + digit` with wraparound in the
fixed-width type, apply the sign last; no digits yields 0. -/
def digitsFold (w : ℕ) (l : List Nat) : ℤ :=
  (l.takeWhile (fun c => decide (isDigitCp c))).foldl
    (fun a c => wrapS w (a * 10 + ((c : ℤ) - 48))) 0

/-- Spec-side description of `getIntValue` (see `digitsFold`). -/
def getIntValueSpec (w : ℕ) (t : List Nat) : ℤ :=
  let s := t.dropWhile (fun c => decide (isWsCp c))
  if cur s = 45 then wrapS w (-(digitsFold w (adv s))) else digitsFold w s

/-- A concrete state that has accumulated 17 significant digits (last
retained digit 7), used to witness the digit-cap step. -/
def capWitnessState : DState :=
  { initDState with numSignificantDigits := 17, digit := 7,
                    accumulator0 := 12345678901234567 }


@[simp] theorem cur_nil : cur [] = 0 := rfl

@[simp] theorem cur_cons (c : Nat) (t : List Nat) : cur (c :: t) = c := rfl

@[simp] theorem adv_nil : adv [] = [] := rfl

@[simp] theorem adv_cons (c : Nat) (t : List Nat) : adv (c :: t) = t := rfl

@[simp] theorem mulexp10_zero (e : ℤ) : mulexp10 0 e = 0 := zero_mul _

theorem skipDigits_length_le (l : List Nat) : (skipDigits l).length ≤ l.length := by
  induction l with
  | nil => simp [skipDigits]
  | cons c t ih =>
    simp only [skipDigits]
    split
    · exact Nat.le_succ_of_le ih
    · exact Nat.le_refl _

/-! ### Consumption helpers: every loop's final cursor is a suffix of its input -/

theorem adv_eq_drop (l : List Nat) : adv l = l.drop 1 := by
  cases l <;> simp

theorem findEndOfWhitespace_drop (t : List Nat) :
    ∃ k, findEndOfWhitespace t = t.drop k := by
  induction t with
  | nil => exact ⟨0, rfl⟩
  | cons c t ih =>
    simp only [findEndOfWhitespace]
    split
    · obtain ⟨k, hk⟩ := ih
      exact ⟨k + 1, by simpa using hk⟩
    · exact ⟨0, rfl⟩

theorem skipSign_drop (s : List Nat) : ∃ k, (skipSign s).2 = s.drop k := by
  unfold skipSign
  split_ifs
  · exact ⟨1, by rw [adv_eq_drop]⟩
  · exact ⟨1, by rw [adv_eq_drop]⟩
  · exact ⟨0, rfl⟩

theorem skipDigits_drop (l : List Nat) : ∃ k, skipDigits l = l.drop k := by
  induction l with
  | nil => exact ⟨0, rfl⟩
  | cons c t ih =>
    simp only [skipDigits]
    split
    · obtain ⟨k, hk⟩ := ih
      exact ⟨k + 1, by simpa using hk⟩
    · exact ⟨0, rfl⟩

theorem getIntLoop_drop (w : ℕ) : ∀ (s : List Nat) (v : ℤ),
    ∃ k, (getIntLoop w v s).2 = s.drop k := by
  intro s
  induction s with
  | nil => exact fun v => ⟨0, rfl⟩
  | cons c t ih =>
    intro v
    simp only [getIntLoop]
    split
    · obtain ⟨k, hk⟩ := ih _
      exact ⟨k + 1, by simpa using hk⟩
    · exact ⟨1, rfl⟩

theorem parseExpDigits_drop : ∀ (s : List Nat) (e : ℤ),
    ∃ k, (parseExpDigits s e).2 = s.drop k := by
  intro s
  induction s with
  | nil => exact fun e => ⟨0, rfl⟩
  | cons c t ih =>
    intro e
    simp only [parseExpDigits]
    split
    · obtain ⟨k, hk⟩ := ih _
      exact ⟨k + 1, by simpa using hk⟩
    · exact ⟨0, rfl⟩

theorem parseExponent_drop (s : List Nat) :
    ∃ k, (parseExponent s).2 = s.drop k := by
  unfold parseExponent
  split_ifs
  · obtain ⟨k, hk⟩ := parseExpDigits_drop (adv s) 0
    exact ⟨1 + k, by rw [hk, adv_eq_drop, List.drop_drop]⟩
  · obtain ⟨k, hk⟩ := parseExpDigits_drop (adv s) 0
    exact ⟨1 + k, by rw [hk, adv_eq_drop, List.drop_drop]⟩
  · exact parseExpDigits_drop s 0

theorem scanLoopF_drop : ∀ (fuel : ℕ) (s : List Nat) (st : DState),
    ∃ k, (scanLoopF fuel s st).1 = s.drop k := by
  intro fuel
  induction fuel with
  | zero => exact fun s st => ⟨0, rfl⟩
  | succ fuel ih =>
    intro s st
    cases s with
    | nil => exact ⟨0, rfl⟩
    | cons c t =>
      simp only [scanLoopF]
      by_cases hd : isDigitCp c
      · rw [if_pos hd]
        by_cases h0 : st.numSignificantDigits = 0 ∧ c - 48 = 0
        · rw [if_pos h0]
          obtain ⟨k, hk⟩ := ih t _
          exact ⟨k + 1, by simpa using hk⟩
        · rw [if_neg h0]
          by_cases hcap : st.numSignificantDigits + 1 > maxSignificantDigits
          · rw [if_pos hcap]
            obtain ⟨k, hk⟩ := ih (skipDigits t) _
            obtain ⟨j, hj⟩ := skipDigits_drop t
            refine ⟨(j + k) + 1, ?_⟩
            rw [List.drop_succ_cons, hk, hj, List.drop_drop]
          · rw [if_neg hcap]
            obtain ⟨k, hk⟩ := ih t _
            exact ⟨k + 1, by simpa using hk⟩
      · rw [if_neg hd]
        by_cases hdot : st.decPointIndex = 0 ∧ c = 46
        · rw [if_pos hdot]
          by_cases hcap : st.numSignificantDigits > maxSignificantDigits
          · rw [if_pos hcap]
            obtain ⟨j, hj⟩ := skipDigits_drop t
            exact ⟨j + 1, by simpa using hj⟩
          · rw [if_neg hcap]
            obtain ⟨k, hk⟩ := ih t _
            exact ⟨k + 1, by simpa using hk⟩
        · rw [if_neg hdot]
          exact ⟨0, rfl⟩

theorem getDoubleBody_drop (neg : Bool) (s : List Nat) :
    ∃ k, (getDoubleBody neg s).2 = s.drop k := by
  unfold getDoubleBody
  split_ifs with h1 h2
  · exact ⟨0, rfl⟩
  · exact ⟨0, rfl⟩
  · simp only
    split_ifs with h3
    · obtain ⟨k, hk⟩ := scanLoopF_drop (s.length + 1) s initDState
      obtain ⟨j, hj⟩ := parseExponent_drop (adv (scanLoop s initDState).1)
      refine ⟨j + (1 + k), ?_⟩
      rw [hj, adv_eq_drop]
      show List.drop j (List.drop 1 (scanLoopF (s.length + 1) s initDState).1) = _
      rw [hk, List.drop_drop, List.drop_drop]
      congr 1
      omega
    · obtain ⟨k, hk⟩ := scanLoopF_drop (s.length + 1) s initDState
      exact ⟨k, hk⟩

theorem getDoubleValueFull_drop (t : List Nat) :
    ∃ k, (getDoubleValueFull t).2 = t.drop k := by
  unfold getDoubleValueFull
  obtain ⟨a, ha⟩ := findEndOfWhitespace_drop t
  obtain ⟨b, hb⟩ := skipSign_drop (findEndOfWhitespace t)
  obtain ⟨k, hk⟩ := getDoubleBody_drop (postSignCursor t).1 (postSignCursor t).2
  refine ⟨k + (b + a), ?_⟩
  rw [hk]
  show List.drop k (skipSign (findEndOfWhitespace t)).2 = _
  rw [hb, ha, List.drop_drop, List.drop_drop]
  congr 1
  omega

/-- C2 counterexample: the claim states that `getIntValue` leaves the
caller's cursor at the first code point not consumed; on the input "12"
everything is consumed (the first unconsumed position is the terminator),
yet the caller's cursor — passed by const reference — still holds the whole
input. -/
theorem claim_C2_counterexample :
    (getIntValueFull 32 [49, 50]).2 = [] ∧
    getIntValueCallerAfter 32 [49, 50] = [49, 50] ∧
    getIntValueCallerAfter 32 [49, 50] ≠ (getIntValueFull 32 [49, 50]).2 := by
  decide

/-- C2 (amended): `getDoubleValue` and `getIntValue` take the caller's
cursor by const reference and never modify it; consumption happens on a
function-local copy, which only ever moves forward, so the local cursor's
final position is a suffix (`List.drop`) of the input. -/
theorem claim_C2_amended (t : List Nat) :
    getIntValueCallerAfter 32 t = t ∧
    getDoubleValueCallerAfter t = t ∧
    (∃ k, (getIntValueFull 32 t).2 = t.drop k) ∧
    (∃ k, (getDoubleValueFull t).2 = t.drop k) := by
  refine ⟨rfl, rfl, ?_, getDoubleValueFull_drop t⟩
  unfold getIntValueFull
  obtain ⟨a, ha⟩ := findEndOfWhitespace_drop t
  simp only
  split_ifs with h
  · obtain ⟨k, hk⟩ := getIntLoop_drop 32 (adv (findEndOfWhitespace t)) 0
    refine ⟨k + (1 + a), ?_⟩
    rw [hk, adv_eq_drop, ha, List.drop_drop, List.drop_drop]
    congr 1
    omega
  · obtain ⟨k, hk⟩ := getIntLoop_drop 32 (findEndOfWhitespace t) 0
    refine ⟨k + a, ?_⟩
    rw [hk, ha, List.drop_drop]
    congr 1
    omega

/-- C1: evaluation of the code at the claim's inputs.  `getDoubleValue`
returns positive infinity for "-inf" (the early `return infinity()` in the
`inf` special case ignores the already-consumed sign), as well as for
"inf" and "INF"; the claim's expected negative infinity is not produced. -/
theorem claim_C1_code_eval :
    getDoubleValue [45, 105, 110, 102] = JDouble.posInf ∧
    getDoubleValue [45, 105, 110, 102] ≠ JDouble.negInf ∧
    getDoubleValue [105, 110, 102] = JDouble.posInf ∧
    getDoubleValue [73, 78, 70] = JDouble.posInf := by
  decide

/-! ### Helpers for the special-case and no-digit paths of `getDoubleValue` -/

theorem not_nanMatch_of_infMatch (s : List Nat) (h : infMatch s) :
    ¬ nanMatch s := by
  intro hn
  rcases h.1 with h' | h' <;> rcases hn.1 with h'' | h'' <;> omega

/-- The scanning loop breaks immediately when the current code point is
neither a digit nor (in lane 0) a decimal point. -/
theorem scanLoop_break (s : List Nat) (st : DState)
    (hd : ¬ isDigitCp (cur s)) (hdot : ¬ (st.decPointIndex = 0 ∧ cur s = 46)) :
    scanLoop s st = (s, st) := by
  cases s with
  | nil => rfl
  | cons c t =>
    show scanLoopF (t.length + 1 + 1) (c :: t) st = _
    simp only [scanLoopF]
    rw [if_neg (by simpa using hd), if_neg (by simpa using hdot)]

/-- When the scanning loop ends with zero lane values and no digit found,
the assembled result of `getDoubleValue`'s body is (signed) zero. -/
theorem getDoubleBody_zeroState (neg : Bool) (s : List Nat)
    (p : List Nat × DState)
    (h1 : ¬ nanMatch s) (h2 : ¬ infMatch s)
    (hs : scanLoop s initDState = p)
    (hres0 : p.2.result0 = 0) (hres1 : p.2.result1 = 0)
    (hacc0 : p.2.accumulator0 = 0) (hacc1 : p.2.accumulator1 = 0)
    (hdf : p.2.digitsFound = false) :
    getDoubleBody neg s = (JDouble.finite neg 0, p.1) := by
  unfold getDoubleBody
  rw [if_neg h1, if_neg h2]
  simp only [hs, hres0, hres1, hacc0, hacc1, hdf, mulexp10_zero, and_false,
    if_false, Bool.false_eq_true, add_zero]
  split_ifs <;> simp [mulexp10_zero]

/-- `getDoubleValue` yields (signed) zero whenever, after whitespace and
sign, no digit can be scanned and no special token matches: either the
loop breaks immediately, or it consumes one '.' and then breaks. -/
theorem getDoubleValue_noDigit (t : List Nat)
    (h1 : ¬ nanMatch (postSignCursor t).2)
    (h2 : ¬ infMatch (postSignCursor t).2)
    (h3 : ¬ isDigitCp (cur (postSignCursor t).2))
    (h4 : cur (postSignCursor t).2 = 46 → ¬ isDigitCp (cur (adv (postSignCursor t).2))) :
    getDoubleValue t = JDouble.finite (postSignCursor t).1 0 := by
  show (getDoubleBody (postSignCursor t).1 (postSignCursor t).2).1 =
    JDouble.finite (postSignCursor t).1 0
  by_cases hdot : cur (postSignCursor t).2 = 46
  · cases hps : (postSignCursor t).2 with
    | nil => rw [hps] at hdot; simp at hdot
    | cons c u =>
      rw [hps] at hdot h1 h2 h3 h4
      simp only [cur_cons] at hdot
      subst hdot
      have hu : ¬ isDigitCp (cur u) := by simpa using h4 rfl
      have hscan : scanLoop (46 :: u) initDState =
          (u, { initDState with decPointIndex := 1 }) := by
        show scanLoopF (u.length + 1 + 1) (46 :: u) initDState = _
        simp only [scanLoopF]
        rw [if_neg (by simp [isDigitCp]), if_pos (by simp [initDState]),
          if_neg (by simp [initDState, maxSignificantDigits])]
        exact scanLoop_break u { initDState with decPointIndex := 1 } hu
          (by simp [initDState])
      have hbody := getDoubleBody_zeroState (postSignCursor t).1 (46 :: u)
        (u, { initDState with decPointIndex := 1 }) h1 h2 hscan
        (by simp [initDState]) (by simp [initDState]) (by simp [initDState])
        (by simp [initDState]) (by simp [initDState])
      rw [hbody]
  · have hscan := scanLoop_break (postSignCursor t).2 initDState h3
      (fun hc => hdot hc.2)
    have hbody := getDoubleBody_zeroState (postSignCursor t).1 (postSignCursor t).2
      ((postSignCursor t).2, initDState) h1 h2 hscan
      (by simp [initDState]) (by simp [initDState]) (by simp [initDState])
      (by simp [initDState]) (by simp [initDState])
    rw [hbody]

/-- C4: after whitespace and an optional sign, `getDoubleValue` recognizes
`nan` and `inf` case-insensitively by the first three code points alone,
before any digit scanning: whenever the three code points case-fold to
"nan" the result is the quiet NaN, and whenever they case-fold to "inf"
the result is (positive) infinity, whatever follows. -/
theorem claim_C4 (t : List Nat) :
    (nanMatch (postSignCursor t).2 → getDoubleValue t = JDouble.nan) ∧
    (infMatch (postSignCursor t).2 → getDoubleValue t = JDouble.posInf) := by
  constructor
  · intro h
    show (getDoubleBody (postSignCursor t).1 (postSignCursor t).2).1 = _
    unfold getDoubleBody
    rw [if_pos h]
  · intro h
    show (getDoubleBody (postSignCursor t).1 (postSignCursor t).2).1 = _
    unfold getDoubleBody
    rw [if_neg (not_nanMatch_of_infMatch _ h), if_pos h]

/-- C4 witness: "nanqq" (trailing garbage after `nan`) parses to NaN and
"-infinity" (trailing garbage after `inf`) parses to positive infinity. -/
theorem claim_C4_witness :
    getDoubleValue [110, 97, 110, 113, 113] = JDouble.nan ∧
    getDoubleValue [45, 105, 110, 102, 105, 110, 105, 116, 121] = JDouble.posInf :=
  ⟨(claim_C4 [110, 97, 110, 113, 113]).1 (by decide),
   (claim_C4 [45, 105, 110, 102, 105, 110, 105, 116, 121]).2 (by decide)⟩

/-- C10: an exponent marker is honored only when a digit was consumed
before it: if the post-whitespace post-sign cursor starts with 'e' or 'E'
(so no digit and no `nan`/`inf` match precede), the whole parse returns
(signed) zero and consumes nothing beyond the sign — the exponent part is
ignored. -/
theorem claim_C10 (t : List Nat)
    (h : cur (postSignCursor t).2 = 101 ∨ cur (postSignCursor t).2 = 69) :
    getDoubleValueFull t =
      (JDouble.finite (postSignCursor t).1 0, (postSignCursor t).2) := by
  have h1 : ¬ nanMatch (postSignCursor t).2 := by
    intro hn
    rcases h with h | h <;> rcases hn.1 with h' | h' <;> omega
  have h2 : ¬ infMatch (postSignCursor t).2 := by
    intro hn
    rcases h with h | h <;> rcases hn.1 with h' | h' <;> omega
  have h3 : ¬ isDigitCp (cur (postSignCursor t).2) := by
    rcases h with h | h <;> simp [h, isDigitCp]
  have hdot : ¬ (cur (postSignCursor t).2 = 46) := by
    rcases h with h | h <;> omega
  have hscan := scanLoop_break (postSignCursor t).2 initDState h3
    (fun hc => hdot hc.2)
  have hbody := getDoubleBody_zeroState (postSignCursor t).1 (postSignCursor t).2
    ((postSignCursor t).2, initDState) h1 h2 hscan
    (by simp [initDState]) (by simp [initDState]) (by simp [initDState])
    (by simp [initDState]) (by simp [initDState])
  show getDoubleBody (postSignCursor t).1 (postSignCursor t).2 = _
  rw [hbody]

/-- C10 witness: "e5" parses to +0.0 with the cursor still at the 'e'. -/
theorem claim_C10_witness :
    (cur (postSignCursor [101, 53]).2 = 101 ∨ cur (postSignCursor [101, 53]).2 = 69) ∧
    getDoubleValueFull [101, 53] = (JDouble.finite false 0, [101, 53]) := by
  refine ⟨by decide, ?_⟩
  have h := claim_C10 [101, 53] (by decide)
  rw [h]
  decide

/-- C5: when no digit is found and neither special token matches,
`getDoubleValue` still returns a value: (signed) zero.  Concretely, ""
and "abc" give +0.0, "-" and "-0" give -0.0 (`finite true 0`), and "+"
gives +0.0. -/
theorem claim_C5 :
    (∀ t : List Nat,
      ¬ nanMatch (postSignCursor t).2 →
      ¬ infMatch (postSignCursor t).2 →
      ¬ isDigitCp (cur (postSignCursor t).2) →
      (cur (postSignCursor t).2 = 46 → ¬ isDigitCp (cur (adv (postSignCursor t).2))) →
      getDoubleValue t = JDouble.finite (postSignCursor t).1 0) ∧
    getDoubleValue [] = JDouble.finite false 0 ∧
    getDoubleValue [97, 98, 99] = JDouble.finite false 0 ∧
    getDoubleValue [45] = JDouble.finite true 0 ∧
    getDoubleValue [45, 48] = JDouble.finite true 0 ∧
    getDoubleValue [43] = JDouble.finite false 0 := by
  refine ⟨getDoubleValue_noDigit, ?_, ?_, ?_, ?_, ?_⟩ <;>
    norm_num [getDoubleValue, getDoubleValueFull, postSignCursor, findEndOfWhitespace,
      skipSign, getDoubleBody, nanMatch, infMatch, scanLoop, scanLoopF, initDState,
      isWsCp, isDigitCp, maxSignificantDigits]

/-- C5 witness: the no-digit case applied to "abc". -/
theorem claim_C5_witness :
    (¬ nanMatch (postSignCursor [97, 98, 99]).2 ∧
     ¬ infMatch (postSignCursor [97, 98, 99]).2 ∧
     ¬ isDigitCp (cur (postSignCursor [97, 98, 99]).2)) ∧
    getDoubleValue [97, 98, 99] = JDouble.finite (postSignCursor [97, 98, 99]).1 0 :=
  ⟨by decide,
   claim_C5.1 [97, 98, 99] (by decide) (by decide) (by decide) (by decide)⟩

/-! ### C6: the integer parser against its spec-side description -/

theorem findEndOfWhitespace_eq_dropWhile (t : List Nat) :
    findEndOfWhitespace t = t.dropWhile (fun c => decide (isWsCp c)) := by
  induction t with
  | nil => rfl
  | cons c t ih =>
    simp only [findEndOfWhitespace, List.dropWhile_cons]
    by_cases h : isWsCp c <;> simp [h, ih]

theorem getIntLoop_fst (w : ℕ) : ∀ (s : List Nat) (v : ℤ),
    (getIntLoop w v s).1 =
      (s.takeWhile (fun c => decide (isDigitCp c))).foldl
        (fun a c => wrapS w (a * 10 + ((c : ℤ) - 48))) v := by
  intro s
  induction s with
  | nil => intro v; rfl
  | cons c t ih =>
    intro v
    simp only [getIntLoop, List.takeWhile_cons]
    by_cases h : isDigitCp c <;> simp [h, ih]

/-- C6: `getIntValue` behaves exactly as described — skip leading
whitespace, take an optional '-' (a '+' is not special), fold the digits
as `v * 10 + digit` with the fixed-width type's wraparound, apply the sign
last, 0 when no digits — and `getIntValue<int32>("2147483648")` wraps to
the minimum 32-bit value.  Also evaluated: "+5" parses as 0 (the '+' stops
the parse), "-42" gives -42, " \t42" gives 42, "a" gives 0. -/
theorem claim_C6 :
    (∀ (w : ℕ) (t : List Nat), getIntValue w t = getIntValueSpec w t) ∧
    getIntValue 32 [50, 49, 52, 55, 52, 56, 51, 54, 52, 56] = -2147483648 ∧
    getIntValue 32 [43, 53] = 0 ∧
    getIntValue 32 [45, 52, 50] = -42 ∧
    getIntValue 32 [32, 9, 52, 50] = 42 ∧
    getIntValue 32 [97] = 0 := by
  refine ⟨?_, by decide, by decide, by decide, by decide, by decide⟩
  intro w t
  unfold getIntValue getIntValueFull getIntValueSpec digitsFold
  simp only [← findEndOfWhitespace_eq_dropWhile]
  by_cases h : cur (findEndOfWhitespace t) = 45 <;>
    simp [h, getIntLoop_fst]

/-! ### C7: `compare` is a sign function, reflexive and antisymmetric -/

theorem strCompare_self : ∀ a : List Nat, strCompare a a = 0 := by
  intro a
  induction a with
  | nil => rfl
  | cons c t ih =>
    simp only [strCompare, cur_cons, adv_cons, if_pos rfl]
    by_cases h : c = 0 <;> simp [h, ih]

theorem strCompare_range : ∀ a b : List Nat,
    strCompare a b = -1 ∨ strCompare a b = 0 ∨ strCompare a b = 1 := by
  intro a
  induction a with
  | nil =>
    intro b
    simp only [strCompare]
    split_ifs <;> simp
  | cons c t ih =>
    intro b
    simp only [strCompare]
    split_ifs <;> simp [ih]

theorem strCompare_antisymm : ∀ a b : List Nat,
    strCompare a b = -(strCompare b a).sign := by
  intro a
  induction a with
  | nil =>
    intro b
    cases b with
    | nil => rfl
    | cons d u =>
      simp only [strCompare, cur_cons, cur_nil, adv_nil]
      by_cases h : d = 0
      · subst h
        norm_num
      · rw [if_neg (by omega : ¬ (0:ℕ) = d), if_pos (Nat.pos_of_ne_zero h),
          if_neg h, if_neg (by omega : ¬ d < 0)]
        rfl
  | cons c t ih =>
    intro b
    cases b with
    | nil =>
      simp only [strCompare, cur_cons, cur_nil, adv_nil]
      by_cases h : c = 0
      · subst h
        norm_num
      · rw [if_neg h, if_neg (by omega : ¬ c < 0),
          if_neg (by omega : ¬ (0:ℕ) = c), if_pos (Nat.pos_of_ne_zero h)]
        rfl
    | cons d u =>
      simp only [strCompare, cur_cons, adv_cons]
      by_cases hcd : c = d
      · subst hcd
        rw [if_pos rfl, if_pos rfl]
        by_cases h : c = 0
        · simp [h]
        · rw [if_neg h, if_neg h]
          exact ih u
      · rw [if_neg hcd, if_neg (fun he : d = c => hcd he.symm)]
        rcases Nat.lt_or_ge c d with h | h
        · rw [if_pos h, if_neg (by omega : ¬ d < c)]
          rfl
        · rw [if_neg (by omega : ¬ c < d), if_pos (by omega : d < c)]
          rfl

/-- C7: `compare` always returns -1, 0 or 1; `compare(a,a) = 0`; and
`compare(a,b) = -sign(compare(b,a))`. -/
theorem claim_C7 (a b : List Nat) :
    (strCompare a b = -1 ∨ strCompare a b = 0 ∨ strCompare a b = 1) ∧
    strCompare a a = 0 ∧
    strCompare a b = -(strCompare b a).sign :=
  ⟨strCompare_range a b, strCompare_self a, strCompare_antisymm a b⟩

/-! ### C3: the significant-digit budget and the digit-cap policy -/

/-- The scanning loop's result does not depend on the fuel, as long as the
fuel exceeds the cursor's length (each iteration consumes at least one code
point). -/
theorem scanLoopF_irrel : ∀ (f1 : ℕ), ∀ (f2 : ℕ) (s : List Nat) (st : DState),
    s.length < f1 → s.length < f2 → scanLoopF f1 s st = scanLoopF f2 s st := by
  intro f1
  induction f1 with
  | zero => intro f2 s st h1 h2; omega
  | succ f1 ih =>
    intro f2 s st h1 h2
    cases f2 with
    | zero => omega
    | succ f2 =>
      cases s with
      | nil => rfl
      | cons c t =>
        have hlt1 : t.length < f1 := by simp at h1; omega
        have hlt2 : t.length < f2 := by simp at h2; omega
        simp only [scanLoopF]
        by_cases hd : isDigitCp c
        · rw [if_pos hd, if_pos hd]
          by_cases h0 : st.numSignificantDigits = 0 ∧ c - 48 = 0
          · rw [if_pos h0, if_pos h0]
            exact ih f2 t _ hlt1 hlt2
          · rw [if_neg h0, if_neg h0]
            by_cases hcap : st.numSignificantDigits + 1 > maxSignificantDigits
            · rw [if_pos hcap, if_pos hcap]
              exact ih f2 (skipDigits t) _
                (lt_of_le_of_lt (skipDigits_length_le t) hlt1)
                (lt_of_le_of_lt (skipDigits_length_le t) hlt2)
            · rw [if_neg hcap, if_neg hcap]
              exact ih f2 t _ hlt1 hlt2
        · rw [if_neg hd, if_neg hd]
          by_cases hdot : st.decPointIndex = 0 ∧ c = 46
          · rw [if_pos hdot, if_pos hdot]
            by_cases hcap : st.numSignificantDigits > maxSignificantDigits
            · rw [if_pos hcap, if_pos hcap]
            · rw [if_neg hcap, if_neg hcap]
              exact ih f2 t _ hlt1 hlt2
          · rw [if_neg hdot, if_neg hdot]

/-- A leading zero (no significant digit seen yet) only records that a
digit was found (and, in the fraction, the per-digit exponent bump): it is
skipped by the `continue` before `numSignificantDigits` is incremented, so
it does not count toward the significant-digit budget and touches no
accumulator. -/
theorem scanLoop_leadingZero (s : List Nat) (st : DState)
    (h0 : st.numSignificantDigits = 0) (hc : cur s = 48) :
    scanLoop s st = scanLoop (adv s)
      { st with lastDigit := st.digit, digit := 0, digitsFound := true,
                exponentAdjustment1 :=
                  if st.decPointIndex ≠ 0 then st.exponentAdjustment1 + 1
                  else st.exponentAdjustment1 } := by
  cases s with
  | nil => simp at hc
  | cons c t =>
    simp only [cur_cons] at hc
    subst hc
    show scanLoopF (t.length + 1 + 1) (48 :: t) st = scanLoopF (t.length + 1) t _
    simp only [scanLoopF]
    rw [if_pos (by decide : isDigitCp 48)]
    norm_num [h0]

/-- The digit that crosses the 17-significant-digit cap is not folded into
the accumulator: the current lane's accumulator is bumped by one exactly
when the dropped digit rounds up (digit > 5, or digit = 5 with the last
retained digit odd); in lane 0 the exponent-adjustment counter absorbs
this digit and every following digit of the run, while in lane 1 the whole
remaining digit run is simply dropped. -/
theorem scanLoop_capStep (s : List Nat) (st : DState)
    (h0 : st.numSignificantDigits = maxSignificantDigits)
    (hd : isDigitCp (cur s)) :
    scanLoop s st = scanLoop (skipDigits (adv s))
      { st with lastDigit := st.digit, digit := cur s - 48, digitsFound := true,
                numSignificantDigits := maxSignificantDigits + 1,
                accumulator0 :=
                  if st.decPointIndex = 0 ∧ roundsUp (cur s - 48) st.digit then
                    st.accumulator0 + 1
                  else st.accumulator0,
                accumulator1 :=
                  if st.decPointIndex ≠ 0 ∧ roundsUp (cur s - 48) st.digit then
                    st.accumulator1 + 1
                  else st.accumulator1,
                exponentAdjustment0 :=
                  if st.decPointIndex = 0 then
                    st.exponentAdjustment0 + 1 + countDigits (adv s)
                  else st.exponentAdjustment0,
                exponentAdjustment1 := st.exponentAdjustment1 } := by
  cases s with
  | nil => simp [isDigitCp] at hd
  | cons c t =>
    simp only [cur_cons] at hd ⊢
    simp only [adv_cons]
    show scanLoopF (t.length + 1 + 1) (c :: t) st = _
    simp only [scanLoopF]
    rw [if_pos hd,
      if_neg (by simp [h0, maxSignificantDigits] :
        ¬ (st.numSignificantDigits = 0 ∧ c - 48 = 0)),
      if_pos (by omega : st.numSignificantDigits + 1 > maxSignificantDigits)]
    rw [scanLoop, ← scanLoopF_irrel (t.length + 1) ((skipDigits t).length + 1)
      (skipDigits t) _
      (lt_of_le_of_lt (skipDigits_length_le t) (Nat.lt_succ_self _))
      (Nat.lt_succ_self _)]
    congr 1
    cases st with
    | mk r0 r1 a0 a1 e0 e1 x0 x1 dp dg ld ns df =>
      simp only [maxSignificantDigits] at h0
      subst h0
      simp only
      split_ifs <;> simp_all [maxSignificantDigits, roundsUp] <;> omega

/-- C3: leading zeros before the first nonzero digit never increment
`numSignificantDigits` (and touch no accumulator), and at the digit that
crosses the 17-digit cap the code stops folding: the last retained digit
is rounded up exactly when the cap-crossing digit is greater than 5 or
equal to 5 with the last retained (previous) digit odd, integer-part
digits past the cap only grow `exponentAdjustment[0]`, and the rest of the
digit run is dropped. -/
theorem claim_C3 :
    (∀ (s : List Nat) (st : DState),
      st.numSignificantDigits = 0 → cur s = 48 →
      scanLoop s st = scanLoop (adv s)
        { st with lastDigit := st.digit, digit := 0, digitsFound := true,
                  exponentAdjustment1 :=
                    if st.decPointIndex ≠ 0 then st.exponentAdjustment1 + 1
                    else st.exponentAdjustment1 }) ∧
    (∀ (s : List Nat) (st : DState),
      st.numSignificantDigits = maxSignificantDigits → isDigitCp (cur s) →
      scanLoop s st = scanLoop (skipDigits (adv s))
        { st with lastDigit := st.digit, digit := cur s - 48, digitsFound := true,
                  numSignificantDigits := maxSignificantDigits + 1,
                  accumulator0 :=
                    if st.decPointIndex = 0 ∧ roundsUp (cur s - 48) st.digit then
                      st.accumulator0 + 1
                    else st.accumulator0,
                  accumulator1 :=
                    if st.decPointIndex ≠ 0 ∧ roundsUp (cur s - 48) st.digit then
                      st.accumulator1 + 1
                    else st.accumulator1,
                  exponentAdjustment0 :=
                    if st.decPointIndex = 0 then
                      st.exponentAdjustment0 + 1 + countDigits (adv s)
                    else st.exponentAdjustment0,
                  exponentAdjustment1 := st.exponentAdjustment1 }) :=
  ⟨scanLoop_leadingZero, scanLoop_capStep⟩

/-- C3 witness: the leading-zero step applied to "05" in the initial
state, and the cap step applied to "92q" in a state that already holds 17
significant digits. -/
theorem claim_C3_witness :
    (initDState.numSignificantDigits = 0 ∧ cur [48, 53] = 48 ∧
      scanLoop [48, 53] initDState = scanLoop (adv [48, 53])
        { initDState with lastDigit := initDState.digit, digit := 0,
                          digitsFound := true,
                          exponentAdjustment1 :=
                            if initDState.decPointIndex ≠ 0 then
                              initDState.exponentAdjustment1 + 1
                            else initDState.exponentAdjustment1 }) ∧
    (capWitnessState.numSignificantDigits = maxSignificantDigits ∧
      isDigitCp (cur [57, 50, 113]) ∧
      scanLoop [57, 50, 113] capWitnessState =
        scanLoop (skipDigits (adv [57, 50, 113]))
          { capWitnessState with
              lastDigit := capWitnessState.digit,
              digit := cur [57, 50, 113] - 48, digitsFound := true,
              numSignificantDigits := maxSignificantDigits + 1,
              accumulator0 :=
                if capWitnessState.decPointIndex = 0 ∧
                    roundsUp (cur [57, 50, 113] - 48) capWitnessState.digit then
                  capWitnessState.accumulator0 + 1
                else capWitnessState.accumulator0,
              accumulator1 :=
                if capWitnessState.decPointIndex ≠ 0 ∧
                    roundsUp (cur [57, 50, 113] - 48) capWitnessState.digit then
                  capWitnessState.accumulator1 + 1
                else capWitnessState.accumulator1,
              exponentAdjustment0 :=
                if capWitnessState.decPointIndex = 0 then
                  capWitnessState.exponentAdjustment0 + 1 +
                    countDigits (adv [57, 50, 113])
                else capWitnessState.exponentAdjustment0,
              exponentAdjustment1 := capWitnessState.exponentAdjustment1 }) :=
  ⟨⟨rfl, rfl, claim_C3.1 [48, 53] initDState rfl rfl⟩,
   ⟨rfl, by decide, claim_C3.2 [57, 50, 113] capWitnessState rfl (by decide)⟩⟩

/-- C9: `copyAndAdvanceUpToBytes` writes an initial segment of the
source (terminator included when reached), never writes a code point
whose encoded size would push the total past the byte budget (when the
output is not the full terminated source, the next code point would not
fit), and returns exactly the number of bytes written. -/
theorem claim_C9 (bytesFor : Nat → ℕ) :
    ∀ (src : List Nat) (maxBytes : ℤ), 0 ∉ src → 0 ≤ maxBytes →
    (∃ k, (copyUpToBytes bytesFor src maxBytes).1 = (src ++ [0]).take k) ∧
    ((copyUpToBytes bytesFor src maxBytes).2 : ℤ) =
      (((copyUpToBytes bytesFor src maxBytes).1.map bytesFor).sum : ℤ) ∧
    ((copyUpToBytes bytesFor src maxBytes).2 : ℤ) ≤ maxBytes ∧
    ((copyUpToBytes bytesFor src maxBytes).1 ≠ src ++ [0] →
      maxBytes < ((copyUpToBytes bytesFor src maxBytes).2 : ℤ) +
        bytesFor (cur (src.drop (copyUpToBytes bytesFor src maxBytes).1.length))) := by
  intro src
  induction src with
  | nil =>
    intro m hsrc hm
    simp only [copyUpToBytes]
    by_cases h1 : m - bytesFor 0 < 0
    · rw [if_pos h1]
      refine ⟨⟨0, rfl⟩, by simp, by simpa using hm, ?_⟩
      intro _
      simp only [List.length_nil, List.drop_nil, cur_nil, Nat.cast_zero, zero_add]
      omega
    · rw [if_neg h1]
      refine ⟨⟨1, rfl⟩, by simp, by omega, ?_⟩
      intro hne
      simp at hne
  | cons c t ih =>
    intro m hsrc hm
    have hc : c ≠ 0 := fun h => hsrc (by simp [h])
    have ht : 0 ∉ t := fun h => hsrc (List.mem_cons_of_mem _ h)
    simp only [copyUpToBytes]
    by_cases h1 : m - bytesFor c < 0
    · rw [if_pos h1]
      refine ⟨⟨0, rfl⟩, by simp, by simpa using hm, ?_⟩
      intro _
      simp only [List.length_nil, List.drop_zero, cur_cons, Nat.cast_zero, zero_add]
      omega
    · rw [if_neg h1, if_neg hc]
      have hm' : 0 ≤ m - bytesFor c := by omega
      obtain ⟨⟨k, hk⟩, hsum, hle, hstop⟩ := ih (m - bytesFor c) ht hm'
      refine ⟨⟨k + 1, ?_⟩, ?_, ?_, ?_⟩
      · simp only [List.cons_append, List.take_succ_cons, hk]
      · simp only [List.map_cons, List.sum_cons]
        push_cast
        push_cast at hsum
        omega
      · push_cast
        push_cast at hsum hle
        omega
      · intro hne
        have hne' : (copyUpToBytes bytesFor t (m - bytesFor c)).1 ≠ t ++ [0] := by
          intro he
          exact hne (by simp [he])
        have hs := hstop hne'
        simp only [List.length_cons, List.drop_succ_cons]
        push_cast
        push_cast at hs
        omega

/-- C9 witness: a one-byte-per-code-point destination, source "ab", budget
2 bytes: both code points are written, the terminator does not fit. -/
theorem claim_C9_witness :
    (∃ k, (copyUpToBytes (fun _ => 1) [97, 98] 2).1 = (([97, 98] : List Nat) ++ [0]).take k) ∧
    ((copyUpToBytes (fun _ => 1) [97, 98] 2).2 : ℤ) =
      (((copyUpToBytes (fun _ => 1) [97, 98] 2).1.map (fun _ => 1)).sum : ℤ) ∧
    ((copyUpToBytes (fun _ => 1) [97, 98] 2).2 : ℤ) ≤ 2 ∧
    ((copyUpToBytes (fun _ => 1) [97, 98] 2).1 ≠ ([97, 98] : List Nat) ++ [0] →
      (2 : ℤ) < ((copyUpToBytes (fun _ => 1) [97, 98] 2).2 : ℤ) +
        (fun _ => 1) (cur (([97, 98] : List Nat).drop
          (copyUpToBytes (fun _ => 1) [97, 98] 2).1.length))) :=
  claim_C9 (fun _ => 1) [97, 98] 2 (by decide) (by decide)

/-! ### C8: `indexOf` finds the first matching offset -/

theorem strLength_of_wf (n : List Nat) (h : 0 ∉ n) : strLength n = n.length := by
  induction n with
  | nil => rfl
  | cons d u ih =>
    have hd : d ≠ 0 := fun he => h (by simp [he])
    have hu : 0 ∉ u := fun he => h (List.mem_cons_of_mem _ he)
    simp [strLength, hd, ih hu]

theorem cur_drop_ne_zero (n : List Nat) (i : ℕ) (h : 0 ∉ n) (hi : i < n.length) :
    cur (n.drop i) ≠ 0 := by
  cases hd : n.drop i with
  | nil =>
    have := List.length_drop i n
    rw [hd] at this
    simp at this
    omega
  | cons a u =>
    have ha : a ∈ n.drop i := by rw [hd]; exact List.mem_cons_self a u
    have := List.mem_of_mem_drop ha
    simp only [cur_cons]
    exact fun he => h (he ▸ this)

theorem matchAt_shift (c : ℕ) (t n : List Nat) (k : ℕ) :
    matchAt (c :: t) n (k + 1) ↔ matchAt t n k := by
  unfold matchAt codeAt
  constructor
  · intro h i hi
    have := h i hi
    rwa [show k + 1 + i = (k + i) + 1 by omega, List.drop_succ_cons] at this
  · intro h i hi
    rw [show k + 1 + i = (k + i) + 1 by omega, List.drop_succ_cons]
    exact h i hi

theorem strCompareUpTo_eq_zero_iff :
    ∀ (m : ℕ) (s1 s2 : List Nat), 0 ∉ s2 → m ≤ s2.length →
    (strCompareUpTo s1 s2 (m : ℤ) = 0 ↔
      ∀ i < m, cur (s1.drop i) = cur (s2.drop i)) := by
  intro m
  induction m with
  | zero =>
    intro s1 s2 _ _
    constructor
    · intro _ i hi
      omega
    · intro _
      cases s1 <;> simp [strCompareUpTo]
  | succ m ih =>
    intro s1 s2 hs2 hlen
    cases s2 with
    | nil => simp at hlen
    | cons d u =>
      have hd : d ≠ 0 := fun he => hs2 (by simp [he])
      have hu : 0 ∉ u := fun he => hs2 (List.mem_cons_of_mem _ he)
      have hmu : m ≤ u.length := by
        simp only [List.length_cons] at hlen
        omega
      have hcast : ((m + 1 : ℕ) : ℤ) - 1 = (m : ℤ) := by push_cast; ring
      have hnotle : ¬ ((m + 1 : ℕ) : ℤ) ≤ 0 := by push_cast; omega
      cases s1 with
      | nil =>
        simp only [strCompareUpTo, cur_cons]
        rw [if_neg hnotle, if_neg (fun he : (0:ℕ) = d => hd he.symm),
          if_pos (Nat.pos_of_ne_zero hd)]
        constructor
        · intro h
          exact absurd h (by decide)
        · intro h
          have := h 0 (Nat.succ_pos m)
          simp only [List.drop_zero, cur_nil, cur_cons] at this
          exact absurd this.symm hd
      | cons c t =>
        simp only [strCompareUpTo, cur_cons, adv_cons]
        rw [if_neg hnotle]
        by_cases hcd : c = d
        · subst hcd
          rw [if_pos rfl, if_neg (fun he : c = 0 => hd he), hcast]
          rw [ih t u hu hmu]
          constructor
          · intro h i hi
            cases i with
            | zero => simp
            | succ i =>
              simp only [List.drop_succ_cons]
              exact h i (by omega)
          · intro h i hi
            exact h (i + 1) (by omega)
        · rw [if_neg hcd]
          constructor
          · intro h
            exfalso
            by_cases hlt : c < d
            · rw [if_pos hlt] at h
              exact absurd h (by decide)
            · rw [if_neg hlt] at h
              exact absurd h (by decide)
          · intro h
            exfalso
            have := h 0 (Nat.succ_pos m)
            simp only [List.drop_zero, cur_cons] at this
            exact hcd this

theorem indexOfLoop_spec (n : List Nat) (hn : 0 ∉ n) :
    ∀ (h : List Nat) (idx : ℤ), 0 ∉ h →
    ((∀ k : ℕ, ¬ matchAt h n k) →
      indexOfLoop n (strLength n) h idx = -1) ∧
    (∀ k : ℕ, matchAt h n k → (∀ j < k, ¬ matchAt h n j) →
      indexOfLoop n (strLength n) h idx = idx + k) := by
  intro h
  induction h with
  | nil =>
    intro idx hh
    have hiff := strCompareUpTo_eq_zero_iff (strLength n) [] n hn
      (le_of_eq (strLength_of_wf n hn))
    have hmatch : strCompareUpTo [] n (strLength n) = 0 ↔ matchAt [] n 0 := by
      rw [hiff]
      unfold matchAt codeAt
      constructor
      · intro hx i hi
        simpa using hx i (by simpa [strLength_of_wf n hn] using hi)
      · intro hx i hi
        simpa using hx i (by simpa [strLength_of_wf n hn] using hi)
    constructor
    · intro hnone
      simp only [indexOfLoop]
      rw [if_neg]
      rw [hmatch]
      exact hnone 0
    · intro k hk hmin
      have hk0 : k = 0 := by
        by_contra hne
        -- any match in the empty haystack forces strLength n = 0,
        -- and then every offset matches, contradicting minimality at 0
        have h0 : matchAt [] n 0 := by
          intro i hi
          have hzero : strLength n = 0 := by
            by_contra hz
            have := hk 0 (by omega)
            unfold codeAt at this
            simp only [List.drop_nil, cur_nil] at this
            exact cur_drop_ne_zero n 0 hn
              (by rw [← strLength_of_wf n hn]; omega) this.symm
          omega
        exact hmin 0 (Nat.pos_of_ne_zero hne) h0
      subst hk0
      simp only [indexOfLoop]
      rw [if_pos (hmatch.mpr hk)]
      simp
  | cons c t ih =>
    intro idx hh
    have hc : c ≠ 0 := fun he => hh (by simp [he])
    have ht : 0 ∉ t := fun he => hh (List.mem_cons_of_mem _ he)
    have hiff := strCompareUpTo_eq_zero_iff (strLength n) (c :: t) n hn
      (le_of_eq (strLength_of_wf n hn))
    have hmatch : strCompareUpTo (c :: t) n (strLength n) = 0 ↔
        matchAt (c :: t) n 0 := by
      rw [hiff]
      unfold matchAt codeAt
      constructor
      · intro hx i hi
        simpa using hx i (by simpa [strLength_of_wf n hn] using hi)
      · intro hx i hi
        simpa using hx i (by simpa [strLength_of_wf n hn] using hi)
    constructor
    · intro hnone
      simp only [indexOfLoop]
      rw [if_neg (fun hz => hnone 0 (hmatch.mp hz)), if_neg hc]
      refine ((ih (idx + 1) ht).1 ?_)
      intro k hk
      exact hnone (k + 1) ((matchAt_shift c t n k).mpr hk)
    · intro k hk hmin
      cases k with
      | zero =>
        simp only [indexOfLoop]
        rw [if_pos (hmatch.mpr hk)]
        simp
      | succ k =>
        have hnot0 : ¬ matchAt (c :: t) n 0 := hmin 0 (Nat.succ_pos k)
        simp only [indexOfLoop]
        rw [if_neg (fun hz => hnot0 (hmatch.mp hz)), if_neg hc]
        have := (ih (idx + 1) ht).2 k ((matchAt_shift c t n k).mp hk)
          (fun j hj hmj =>
            hmin (j + 1) (by omega) ((matchAt_shift c t n j).mpr hmj))
        rw [this]
        push_cast
        ring

/-- C8: `indexOf` returns the zero-based code-point offset of the first
position at which the haystack's remaining text matches the needle for the
needle's full length; an empty needle matches every haystack at offset 0;
and when no offset matches (the haystack is exhausted first), the result
is -1. -/
theorem claim_C8 (haystack needle : List Nat)
    (hh : 0 ∉ haystack) (hn : 0 ∉ needle) :
    (needle = [] → strIndexOf haystack needle = 0) ∧
    (∀ k : ℕ, matchAt haystack needle k →
      (∀ j < k, ¬ matchAt haystack needle j) →
      strIndexOf haystack needle = k) ∧
    ((∀ k : ℕ, ¬ matchAt haystack needle k) →
      strIndexOf haystack needle = -1) := by
  have hspec := indexOfLoop_spec needle hn haystack 0 hh
  refine ⟨?_, ?_, ?_⟩
  · intro he
    subst he
    have := hspec.2 0 (by intro i hi; simp [strLength] at hi)
      (by intro j hj; omega)
    simpa [strIndexOf] using this
  · intro k hk hmin
    have := hspec.2 k hk hmin
    simpa [strIndexOf] using this
  · intro hnone
    have := hspec.1 hnone
    simpa [strIndexOf] using this

/-- C8 witness: in "abcdef" the needle "cd" first matches at offset 2. -/
theorem claim_C8_witness :
    strIndexOf [97, 98, 99, 100, 101, 102] [99, 100] = 2 :=
  (claim_C8 [97, 98, 99, 100, 101, 102] [99, 100] (by decide) (by decide)).2.1
    2 (by decide) (by decide)
